import Mathlib

/-!
Verification of the QPS load-testing engine in `shared_loadtest.py` (and its
near-duplicate `loadtesting/shared_loadtest.py`).

The embedding below translates the core of the engine into Lean:

* latencies and clock readings are modelled as rationals (Python computes with
  IEEE floats; the claims under study are about the algorithms, which are
  exact rational/real formulas, not about float rounding);
* the worker loop body (`query_worker`, lines 79-123) becomes a pure step
  function over an explicit task/result alphabet;
* the pacer loop (lines 184-216) becomes a fold over the list of clock
  readings observed at the top of each loop iteration;
* the aggregation code (lines 233-289) becomes pure list functions;
* Python exceptions that escape a function are modelled with `Except`.
-/

/-- Python's `int()` truncates toward zero. -/
def pyint (q : ℚ) : ℤ := if 0 ≤ q then ⌊q⌋ else -⌊-q⌋

/-- Python's `min(xs)` over a non-empty list (`min([])` raises; every call site
in the source guards non-emptiness).  The empty case returns a default of 0. -/
def pymin : List ℚ → ℚ
  | [] => 0
  | x :: xs => xs.foldl min x

/-- Python's `max(xs)`, same conventions as `pymin`. -/
def pymax : List ℚ → ℚ
  | [] => 0
  | x :: xs => xs.foldl max x

/-- `index = (p / 100) * (n - 1)` from `percentile` (shared_loadtest.py:262). -/
def percentileIndex (p : ℚ) (n : ℕ) : ℚ := (p / 100) * ((n : ℚ) - 1)

/-- `percentile(data, p)` nested in `run_qps_load_test`
(shared_loadtest.py:257-268).  `index.is_integer()` becomes `den = 1`;
`data[i]` becomes `List.getD` (every index reached under the claims'
hypotheses is in range, see `percentile_linear_interpolation`). -/
def percentile (data : List ℚ) (p : ℚ) : ℚ :=
  if data.length = 0 then 0
  else if (percentileIndex p data.length).den = 1 then
    data.getD (pyint (percentileIndex p data.length)).toNat 0
  else
    data.getD (pyint (percentileIndex p data.length)).toNat 0 +
      (data.getD ((pyint (percentileIndex p data.length)).toNat + 1) 0 -
        data.getD (pyint (percentileIndex p data.length)).toNat 0) *
        (percentileIndex p data.length - ((pyint (percentileIndex p data.length) : ℤ) : ℚ))

/-- `statistics.median(xs)`: sort, take the middle element (odd length) or the
mean of the two middle elements (even length).  `statistics.median([])` raises;
the only call site (shared_loadtest.py:254) is guarded by non-emptiness. -/
def pymedian (l : List ℚ) : ℚ :=
  if l.length = 0 then 0
  else if l.length % 2 = 1 then (l.insertionSort (· ≤ ·)).getD (l.length / 2) 0
  else
    ((l.insertionSort (· ≤ ·)).getD (l.length / 2 - 1) 0 +
      (l.insertionSort (· ≤ ·)).getD (l.length / 2) 0) / 2

/-- One entry of the results queue, `{'success': …, 'time': …, 'key': …,
'result_count': …}` on success and `{'success': False, 'error': …, 'time': 0}`
on failure (shared_loadtest.py:100-113).  Dict keys absent from one variant
are `none`. -/
structure Outcome where
  success : Bool
  time : ℚ
  key : Option ℤ
  result_count : Option ℕ
  error : Option String
deriving DecidableEq

/-- The result-collection loop of `run_qps_load_test`
(shared_loadtest.py:233-243): drain the results queue in order, gathering the
times of successful outcomes and counting successes and failures.
Returns `(query_times, successful_queries, failed_queries)`. -/
def collectResults (results : List Outcome) : List ℚ × ℕ × ℕ :=
  results.foldl
    (fun acc r =>
      if r.success then (acc.1 ++ [r.time], acc.2.1 + 1, acc.2.2)
      else (acc.1, acc.2.1, acc.2.2 + 1))
    ([], 0, 0)

/-- The 10-tuple returned by `run_qps_load_test` (shared_loadtest.py:286,289),
in source order. -/
structure RunResult where
  min_time : ℚ
  max_time : ℚ
  avg_time : ℚ
  median_time : ℚ
  p90 : ℚ
  p95 : ℚ
  p99 : ℚ
  actual_qps : ℚ
  successful : ℕ
  failed : ℕ
deriving DecidableEq

/-- The statistics block of `run_qps_load_test` (shared_loadtest.py:246-289).
`if query_times:` is Python truthiness, i.e. non-emptiness; the else branch
returns `(0, 0, 0, 0, 0, 0, 0, 0, 0, failed_queries)`.  In the non-empty
branch `actual_qps = successful_queries / run_seconds` (line 275; the suite
always passes `run_seconds > 0`). -/
def computeRunResult (query_times : List ℚ) (successful failed : ℕ) (run_seconds : ℚ) :
    RunResult :=
  if query_times = [] then ⟨0, 0, 0, 0, 0, 0, 0, 0, 0, failed⟩
  else
    ⟨pymin query_times,
     pymax query_times,
     query_times.sum / (query_times.length : ℚ),
     pymedian (query_times.insertionSort (· ≤ ·)),
     percentile (query_times.insertionSort (· ≤ ·)) 90,
     percentile (query_times.insertionSort (· ≤ ·)) 95,
     percentile (query_times.insertionSort (· ≤ ·)) 99,
     (successful : ℚ) / run_seconds,
     successful, failed⟩

/-- `run_qps_load_test` restricted to its aggregation behaviour: given the
multiset of outcomes sitting in the results queue after the measurement phase,
produce the returned statistics (shared_loadtest.py:233-289). -/
def run_qps_load_test (results : List Outcome) (run_seconds : ℚ) : RunResult :=
  computeRunResult (collectResults results).1 (collectResults results).2.1
    (collectResults results).2.2 run_seconds

/-- Python exceptions that cross a function boundary in the modelled code. -/
inductive PyError where
  | zeroDivisionError : PyError
deriving DecidableEq

/-- Python's `/` on numbers: raises `ZeroDivisionError` on a zero denominator. -/
def pydiv (a b : ℚ) : Except PyError ℚ :=
  if b = 0 then Except.error PyError.zeroDivisionError else Except.ok (a / b)

/-- One iteration of the per-level loop of `run_load_test_suite`
(shared_loadtest.py:336-357).  `run_qps_load_test` always returns a 10-tuple
and a non-empty tuple is truthy, so `if results:` always takes the success
branch: the record is appended to `test_results` and the success rate
`successful / (successful + failed) * 100` is printed — Python raises
`ZeroDivisionError` there when `successful + failed == 0`, and the exception
propagates out of `run_load_test_suite` (the appended record is lost with the
aborted call). -/
def suiteLevelStep (test_results : List RunResult) (r : RunResult) :
    Except PyError (List RunResult) :=
  match pydiv ((r.successful : ℚ) * 100) ((r.successful : ℚ) + (r.failed : ℚ)) with
  | Except.error e => Except.error e
  | Except.ok _ => Except.ok (test_results ++ [r])

/-- The whole per-level loop of `run_load_test_suite`
(shared_loadtest.py:328-375), given the per-level results: each level is
processed by `suiteLevelStep`; the first uncaught exception aborts the suite. -/
def runSuiteLevels (levels : List RunResult) : Except PyError (List RunResult) :=
  levels.foldlM suiteLevelStep []

/-- A queue task: `None` is the poison pill; a real task is the dict
`{'is_warmup': …, 'table_config': …}` (the table config is fixed for a run and
lives in the query closure here). -/
inductive QTask where
  | poison : QTask
  | real (is_warmup : Bool) : QTask
deriving DecidableEq

/-- Result of one call of `execute_query_func`: a row count together with the
elapsed wall-clock time of the call, or a raised exception with its text. -/
inductive ExecResult where
  | ok (row_count : ℕ) (elapsed : ℚ) : ExecResult
  | exc (msg : String) : ExecResult
deriving DecidableEq

/-- Outcome of one `query_queue.get(timeout=1.0)` call: a task, or a raised
queue/timeout exception. -/
inductive GetResult where
  | task (t : QTask) : GetResult
  | timeoutOrError : GetResult
deriving DecidableEq

/-- What the worker loop does next after one iteration. -/
inductive Control where
  | continueLoop : Control
  | exitLoop : Control
deriving DecidableEq

/-- The real-task body of `query_worker` (shared_loadtest.py:86-113): draw a
random key, time the `execute_query_func` call, and build the outcomes pushed
to the results queue.  The first component records the executed call's result:
the call happens — and is timed — whether or not the task is a warmup task;
only the enqueueing is conditional on `is_warmup`.  Randomness and the clock
are external inputs (`random_key`, the `elapsed` field of `ExecResult`). -/
def processRealTask (is_warmup : Bool) (exec : ℤ → ExecResult) (random_key : ℤ) :
    ExecResult × List Outcome :=
  (exec random_key,
    match exec random_key with
    | ExecResult.ok cnt t =>
        if is_warmup then [] else [⟨true, t, some random_key, some cnt, none⟩]
    | ExecResult.exc m =>
        if is_warmup then [] else [⟨false, 0, none, none, some m⟩])

/-- One iteration of the `while True` loop of `query_worker`
(shared_loadtest.py:79-123): dequeue; `None` breaks the loop; a real task is
processed by `processRealTask` and the loop continues; a queue/timeout
exception continues after a 0.1 s sleep when `query_queue.empty()` and breaks
the loop otherwise. -/
def queryWorkerStep (g : GetResult) (queue_empty : Bool) (exec : ℤ → ExecResult)
    (random_key : ℤ) : Control × List Outcome :=
  match g with
  | GetResult.task QTask.poison => (Control.exitLoop, [])
  | GetResult.task (QTask.real w) => (Control.continueLoop, (processRealTask w exec random_key).2)
  | GetResult.timeoutOrError =>
      if queue_empty then (Control.continueLoop, []) else (Control.exitLoop, [])

/-- The real-task body of the duplicate `query_worker` in
`loadtesting/shared_loadtest.py` (lines 89-116), translated independently. -/
def processRealTaskLT (is_warmup : Bool) (exec : ℤ → ExecResult) (random_key : ℤ) :
    ExecResult × List Outcome :=
  (exec random_key,
    match exec random_key with
    | ExecResult.ok cnt t =>
        if is_warmup then [] else [⟨true, t, some random_key, some cnt, none⟩]
    | ExecResult.exc m =>
        if is_warmup then [] else [⟨false, 0, none, none, some m⟩])

/-- One iteration of the duplicate `query_worker` loop in
`loadtesting/shared_loadtest.py` (lines 82-126), translated independently. -/
def queryWorkerStepLT (g : GetResult) (queue_empty : Bool) (exec : ℤ → ExecResult)
    (random_key : ℤ) : Control × List Outcome :=
  match g with
  | GetResult.task QTask.poison => (Control.exitLoop, [])
  | GetResult.task (QTask.real w) => (Control.continueLoop, (processRealTaskLT w exec random_key).2)
  | GetResult.timeoutOrError =>
      if queue_empty then (Control.continueLoop, []) else (Control.exitLoop, [])

/-- Pacer loop state: `next_query_time` and the number of tasks enqueued so
far in the current phase (shared_loadtest.py:184-216). -/
structure PacerState where
  next_query_time : ℚ
  enqueued : ℕ
deriving DecidableEq

/-- One iteration of a pacing-phase loop (shared_loadtest.py:188-194 for
warmup, 205-216 for measurement): read the clock; if
`current_time >= next_query_time`, enqueue one task and advance
`next_query_time` by the fixed `interval`; otherwise sleep 1 ms and recheck. -/
def pacerStep (interval : ℚ) (s : PacerState) (now : ℚ) : PacerState :=
  if s.next_query_time ≤ now then ⟨s.next_query_time + interval, s.enqueued + 1⟩ else s

/-- A whole pacing phase, as a fold of `pacerStep` over the clock readings
observed at the top of each iteration; `next_query_time` is initialized to the
phase start (shared_loadtest.py:186,203). -/
def pacerRun (interval phase_start : ℚ) (clocks : List ℚ) : PacerState :=
  clocks.foldl (pacerStep interval) ⟨phase_start, 0⟩

/-- `interval = 1.0 / target_qps` (shared_loadtest.py:180). -/
def qpsInterval (target_qps : ℕ) : ℚ := 1 / (target_qps : ℚ)

/-- Worker ids started by `run_qps_load_test` (shared_loadtest.py:166-173):
`for i in range(target_qps)`. -/
def startedWorkers (target_qps : ℕ) : List ℕ := List.range target_qps

/-- The pacer's actions on the task queue after the measurement phase
(shared_loadtest.py:221-226): `query_queue.join()` — block until every
enqueued task has been processed — followed by `query_queue.put(None)` once
per worker. -/
inductive PacerEvent where
  | joinQueue : PacerEvent
  | putPoison : PacerEvent
deriving DecidableEq

/-- The post-measurement event sequence of the pacer
(shared_loadtest.py:221-226). -/
def shutdownEvents (target_qps : ℕ) : List PacerEvent :=
  PacerEvent.joinQueue :: List.replicate target_qps PacerEvent.putPoison

/-- C4: within each pacing phase, after `k` tasks have been enqueued the
pacer's next fire time equals the phase start plus `k * (1/target_qps)`:
`next_query_time` is advanced only by adding the fixed interval on each
enqueue and is never recomputed from the clock, so the relation holds for
every sequence of clock readings and pacing drift does not accumulate. -/
theorem pacer_fixed_increment_no_drift (target_qps : ℕ) (phase_start : ℚ)
    (clocks : List ℚ) :
    (pacerRun (qpsInterval target_qps) phase_start clocks).next_query_time =
      phase_start +
        ((pacerRun (qpsInterval target_qps) phase_start clocks).enqueued : ℚ) *
          qpsInterval target_qps := by
  suffices h : ∀ (interval : ℚ) (l : List ℚ) (s : PacerState),
      s.next_query_time = phase_start + (s.enqueued : ℚ) * interval →
      (l.foldl (pacerStep interval) s).next_query_time =
        phase_start + ((l.foldl (pacerStep interval) s).enqueued : ℚ) * interval by
    exact h (qpsInterval target_qps) clocks ⟨phase_start, 0⟩ (by simp)
  intro interval l
  induction l with
  | nil => intro s hs; simpa using hs
  | cons c t ih =>
      intro s hs
      simp only [List.foldl_cons]
      apply ih
      unfold pacerStep
      by_cases hc : s.next_query_time ≤ c
      · rw [if_pos hc]
        simp only []
        rw [hs]
        push_cast
        ring
      · rw [if_neg hc]; exact hs

/-- C5: for every real task a worker processes, the query is executed and
timed regardless of phase (the executed call's result is the same function of
the drawn key whether or not the task is a warmup task), while the results
queue is left unchanged exactly for warmup tasks: a warmup task enqueues no
outcome and a non-warmup real task enqueues exactly one outcome; the worker
step forwards exactly those outcomes. -/
theorem warmup_task_frame (exec : ℤ → ExecResult) (random_key : ℤ) (queue_empty : Bool) :
    (∀ w : Bool, (processRealTask w exec random_key).1 = exec random_key) ∧
    (processRealTask true exec random_key).2 = [] ∧
    (processRealTask false exec random_key).2.length = 1 ∧
    (∀ w : Bool,
      queryWorkerStep (GetResult.task (QTask.real w)) queue_empty exec random_key =
        (Control.continueLoop, (processRealTask w exec random_key).2)) := by
  refine ⟨fun w => rfl, ?_, ?_, fun w => rfl⟩
  · cases h : exec random_key <;> simp [processRealTask, h]
  · cases h : exec random_key <;> simp [processRealTask, h]

/-- C6: for every non-warmup task whose query call raises an exception, the
worker catches it and enqueues exactly one failed outcome whose `error` field
is the exception's text and whose `time` is 0; the loop continues (the
exception never terminates the worker), and nothing but that stored text is
produced. -/
theorem query_exception_failed_outcome (exec : ℤ → ExecResult) (random_key : ℤ)
    (queue_empty : Bool) (msg : String) (hexc : exec random_key = ExecResult.exc msg) :
    queryWorkerStep (GetResult.task (QTask.real false)) queue_empty exec random_key =
      (Control.continueLoop, [⟨false, 0, none, none, some msg⟩]) := by
  simp [queryWorkerStep, processRealTask, hexc]

/-- Witness for `query_exception_failed_outcome` at a concrete failing call. -/
def sampleError : String := "connection reset"

theorem query_exception_failed_outcome_witness :
    queryWorkerStep (GetResult.task (QTask.real false)) true
        (fun _ => ExecResult.exc sampleError) 7 =
      (Control.continueLoop, [⟨false, 0, none, none, some sampleError⟩]) :=
  query_exception_failed_outcome (fun _ => ExecResult.exc sampleError) 7 true
    sampleError rfl

/-- C7: in the pacer's shutdown sequence no poison task is enqueued before the
`join` on the task queue (every poison-put event sits strictly after the join
event, which is the first event), exactly `target_qps` poison tasks are
enqueued — one per started worker — and a worker that dequeues a poison task
enqueues nothing further and exits its loop, so it consumes no second pill. -/
theorem poison_after_drain (target_qps i : ℕ)
    (hpi : (shutdownEvents target_qps).getD i PacerEvent.joinQueue = PacerEvent.putPoison) :
    1 ≤ i ∧
    (shutdownEvents target_qps).getD 0 PacerEvent.putPoison = PacerEvent.joinQueue ∧
    (shutdownEvents target_qps).count PacerEvent.putPoison = target_qps ∧
    (startedWorkers target_qps).length = target_qps ∧
    (∀ (queue_empty : Bool) (exec : ℤ → ExecResult) (random_key : ℤ),
      queryWorkerStep (GetResult.task QTask.poison) queue_empty exec random_key =
        (Control.exitLoop, [])) := by
  refine ⟨?_, rfl, ?_, List.length_range target_qps, fun e ex k => rfl⟩
  · by_contra h
    have hi0 : i = 0 := by omega
    rw [hi0] at hpi
    simp [shutdownEvents] at hpi
  · simp [shutdownEvents, List.count_cons, List.count_replicate]

/-- Witness for `poison_after_drain`: with `target_qps = 2` the event at
position 1 is a poison put. -/
theorem poison_after_drain_witness :
    ((shutdownEvents 2).getD 1 PacerEvent.joinQueue = PacerEvent.putPoison) ∧
    (1 ≤ 1 ∧
      (shutdownEvents 2).getD 0 PacerEvent.putPoison = PacerEvent.joinQueue ∧
      (shutdownEvents 2).count PacerEvent.putPoison = 2 ∧
      (startedWorkers 2).length = 2 ∧
      (∀ (queue_empty : Bool) (exec : ℤ → ExecResult) (random_key : ℤ),
        queryWorkerStep (GetResult.task QTask.poison) queue_empty exec random_key =
          (Control.exitLoop, []))) :=
  ⟨rfl, poison_after_drain 2 1 rfl⟩

/-- C8 counterexample: the claim says that on a dequeue timeout the worker
continues unless the queue is empty and draining, in which case it exits.  The
code does the opposite: with the queue empty it continues (sleeps and
rechecks, waiting for its poison pill), and with the queue non-empty it exits
the loop. -/
theorem dequeue_timeout_policy_cex :
    queryWorkerStep GetResult.timeoutOrError true (fun _ => ExecResult.ok 0 0) 0 =
      (Control.continueLoop, []) ∧
    queryWorkerStep GetResult.timeoutOrError false (fun _ => ExecResult.ok 0 0) 0 =
      (Control.exitLoop, []) :=
  ⟨rfl, rfl⟩

/-- C8 (amended): when a worker's dequeue attempt times out or otherwise
fails, the worker continues its loop after a short sleep exactly when the
queue is empty (so an idle worker keeps waiting for its poison task), and
exits its loop when the dequeue fails while the queue is non-empty; in either
case no outcome is enqueued. -/
theorem dequeue_timeout_policy (queue_empty : Bool) (exec : ℤ → ExecResult)
    (random_key : ℤ) :
    queryWorkerStep GetResult.timeoutOrError queue_empty exec random_key =
      (if queue_empty then Control.continueLoop else Control.exitLoop, []) := by
  cases queue_empty <;> rfl

/-- C10 counterexample (negation of the claim): the two `query_worker`
implementations in `shared_loadtest.py` and `loadtesting/shared_loadtest.py`
are behaviorally equal step functions — in particular on the drain/poison
path — not inconsistent as claimed. -/
theorem worker_duplicates_identical : queryWorkerStepLT = queryWorkerStep := rfl

/-- C10 (amended): the two near-duplicate `query_worker` implementations are
behaviorally equivalent, including on the drain/poison path: on a dequeue
failure both continue when the queue is empty and both exit when the queue is
non-empty. -/
theorem worker_duplicates_equivalent (g : GetResult) (queue_empty : Bool)
    (exec : ℤ → ExecResult) (random_key : ℤ) :
    queryWorkerStepLT g queue_empty exec random_key =
      queryWorkerStep g queue_empty exec random_key ∧
    queryWorkerStepLT GetResult.timeoutOrError queue_empty exec random_key =
      (if queue_empty then Control.continueLoop else Control.exitLoop, []) := by
  refine ⟨rfl, ?_⟩
  cases queue_empty <;> rfl

lemma pyint_eq_floor {q : ℚ} (h : 0 ≤ q) : pyint q = ⌊q⌋ := if_pos h

lemma percentileIndex_nonneg {p : ℚ} {n : ℕ} (hn : n ≠ 0) (hp0 : 0 ≤ p) :
    0 ≤ percentileIndex p n := by
  have h1 : (1 : ℚ) ≤ (n : ℚ) := by exact_mod_cast Nat.one_le_iff_ne_zero.mpr hn
  exact mul_nonneg (div_nonneg hp0 (by norm_num)) (by linarith)

lemma percentileIndex_le_sub_one {p : ℚ} {n : ℕ} (hn : n ≠ 0) (hp0 : 0 ≤ p)
    (hp1 : p ≤ 100) : percentileIndex p n ≤ (n : ℚ) - 1 := by
  have h1 : (1 : ℚ) ≤ (n : ℚ) := by exact_mod_cast Nat.one_le_iff_ne_zero.mpr hn
  have h2 : p / 100 ≤ 1 := by linarith
  calc (p / 100) * ((n : ℚ) - 1) ≤ 1 * ((n : ℚ) - 1) :=
        mul_le_mul_of_nonneg_right h2 (by linarith)
    _ = (n : ℚ) - 1 := one_mul _

lemma floor_index_le {x : ℚ} {n : ℕ} (hx0 : 0 ≤ x) (hx1 : x ≤ (n : ℚ) - 1) :
    (⌊x⌋).toNat ≤ n - 1 ∧ 1 ≤ n := by
  have h1 : (1 : ℚ) ≤ (n : ℚ) := by linarith [Int.floor_le x, Int.floor_nonneg.mpr hx0]
  have hn : 1 ≤ n := by exact_mod_cast h1
  have h2 : ((⌊x⌋ : ℤ) : ℚ) ≤ ((n : ℤ) : ℚ) - 1 := le_trans (Int.floor_le x) (by push_cast; linarith)
  have h3 : ⌊x⌋ ≤ (n : ℤ) - 1 := by exact_mod_cast h2
  exact ⟨by omega, hn⟩

lemma floor_index_succ_le {x : ℚ} {n : ℕ} (hx0 : 0 ≤ x) (hx1 : x ≤ (n : ℚ) - 1)
    (hne : ((⌊x⌋ : ℤ) : ℚ) ≠ x) : (⌊x⌋).toNat + 1 ≤ n - 1 := by
  have hlt : ((⌊x⌋ : ℤ) : ℚ) < x := lt_of_le_of_ne (Int.floor_le x) hne
  have h2 : ((⌊x⌋ : ℤ) : ℚ) < ((n : ℤ) : ℚ) - 1 := lt_of_lt_of_le hlt (by push_cast; linarith)
  have h3 : ⌊x⌋ < (n : ℤ) - 1 := by exact_mod_cast h2
  have h0 : (0 : ℤ) ≤ ⌊x⌋ := Int.floor_nonneg.mpr hx0
  omega

/-- C1: for every non-empty sorted sample and percentile level `p` in
`{90, 95, 99}`, the aggregator's `percentile` computes
`index = (p/100)*(n-1)`; the truncated index (and, in the interpolating case,
its successor) is in range; when the index is integral the element at that
index is returned, and otherwise the floor element plus (ceiling element
minus floor element) times the fractional part of the index. -/
theorem percentile_linear_interpolation (data : List ℚ) (p : ℚ)
    (hsorted : data.Sorted (· ≤ ·)) (hn : 0 < data.length)
    (hp : p = 90 ∨ p = 95 ∨ p = 99) :
    (pyint (percentileIndex p data.length)).toNat < data.length ∧
    ((percentileIndex p data.length).den = 1 →
      percentile data p = data.getD (pyint (percentileIndex p data.length)).toNat 0) ∧
    ((percentileIndex p data.length).den ≠ 1 →
      (pyint (percentileIndex p data.length)).toNat + 1 < data.length ∧
      percentile data p =
        data.getD (pyint (percentileIndex p data.length)).toNat 0 +
          (data.getD ((pyint (percentileIndex p data.length)).toNat + 1) 0 -
            data.getD (pyint (percentileIndex p data.length)).toNat 0) *
            (percentileIndex p data.length -
              ((pyint (percentileIndex p data.length) : ℤ) : ℚ))) := by
  have hp0 : 0 ≤ p := by rcases hp with h | h | h <;> rw [h] <;> norm_num
  have hp1 : p ≤ 100 := by rcases hp with h | h | h <;> rw [h] <;> norm_num
  have hne : data.length ≠ 0 := Nat.pos_iff_ne_zero.mp hn
  have hx0 : 0 ≤ percentileIndex p data.length := percentileIndex_nonneg hne hp0
  have hx1 : percentileIndex p data.length ≤ (data.length : ℚ) - 1 :=
    percentileIndex_le_sub_one hne hp0 hp1
  obtain ⟨hk, hn1⟩ := floor_index_le hx0 hx1
  have hpy : pyint (percentileIndex p data.length) = ⌊percentileIndex p data.length⌋ :=
    pyint_eq_floor hx0
  refine ⟨by rw [hpy]; omega, fun hden => ?_, fun hden => ?_⟩
  · unfold percentile
    rw [if_neg hne, if_pos hden]
  · have hflne : ((⌊percentileIndex p data.length⌋ : ℤ) : ℚ) ≠ percentileIndex p data.length := by
      intro heq
      apply hden
      rw [← heq]
      exact Rat.den_intCast _
    have hsucc := floor_index_succ_le hx0 hx1 hflne
    refine ⟨by rw [hpy]; omega, ?_⟩
    unfold percentile
    rw [if_neg hne, if_neg hden]

/-- Witness for `percentile_linear_interpolation` on the sorted sample
`[1, 2, 3, 4]` at `p = 95` (index `2.85`, interpolating case). -/
theorem percentile_linear_interpolation_witness :
    (0 < ([1, 2, 3, 4] : List ℚ).length) ∧
    ((pyint (percentileIndex 95 ([1, 2, 3, 4] : List ℚ).length)).toNat <
        ([1, 2, 3, 4] : List ℚ).length ∧
      ((percentileIndex 95 ([1, 2, 3, 4] : List ℚ).length).den = 1 →
        percentile ([1, 2, 3, 4] : List ℚ) 95 =
          ([1, 2, 3, 4] : List ℚ).getD
            (pyint (percentileIndex 95 ([1, 2, 3, 4] : List ℚ).length)).toNat 0) ∧
      ((percentileIndex 95 ([1, 2, 3, 4] : List ℚ).length).den ≠ 1 →
        (pyint (percentileIndex 95 ([1, 2, 3, 4] : List ℚ).length)).toNat + 1 <
            ([1, 2, 3, 4] : List ℚ).length ∧
        percentile ([1, 2, 3, 4] : List ℚ) 95 =
          ([1, 2, 3, 4] : List ℚ).getD
              (pyint (percentileIndex 95 ([1, 2, 3, 4] : List ℚ).length)).toNat 0 +
            (([1, 2, 3, 4] : List ℚ).getD
                ((pyint (percentileIndex 95 ([1, 2, 3, 4] : List ℚ).length)).toNat + 1) 0 -
              ([1, 2, 3, 4] : List ℚ).getD
                (pyint (percentileIndex 95 ([1, 2, 3, 4] : List ℚ).length)).toNat 0) *
              (percentileIndex 95 ([1, 2, 3, 4] : List ℚ).length -
                ((pyint (percentileIndex 95 ([1, 2, 3, 4] : List ℚ).length) : ℤ) : ℚ)))) :=
  ⟨by norm_num,
    percentile_linear_interpolation [1, 2, 3, 4] 95 (by decide) (by norm_num)
      (Or.inr (Or.inl rfl))⟩

lemma sorted_getD_le (s : List ℚ) (hs : s.Sorted (· ≤ ·)) {i j : ℕ} (hij : i ≤ j)
    (hj : j < s.length) : s.getD i 0 ≤ s.getD j 0 := by
  have hi : i < s.length := lt_of_le_of_lt hij hj
  rw [List.getD_eq_getElem s 0 hi, List.getD_eq_getElem s 0 hj]
  have hf : (⟨i, hi⟩ : Fin s.length) ≤ ⟨j, hj⟩ := hij
  have h := List.Sorted.rel_get_of_le hs hf
  simpa using h

lemma getD_mem_of_lt (s : List ℚ) {i : ℕ} (h : i < s.length) : s.getD i 0 ∈ s := by
  rw [List.getD_eq_getElem s 0 h]
  exact List.getElem_mem h

lemma foldl_min_le_init (l : List ℚ) : ∀ a : ℚ, l.foldl min a ≤ a := by
  induction l with
  | nil => intro a; exact le_refl a
  | cons b t ih => intro a; exact le_trans (ih (min a b)) (min_le_left a b)

lemma foldl_min_le_mem (l : List ℚ) : ∀ a y : ℚ, y ∈ l → l.foldl min a ≤ y := by
  induction l with
  | nil => intro a y hy; exact absurd hy (List.not_mem_nil y)
  | cons b t ih =>
      intro a y hy
      rcases List.mem_cons.mp hy with rfl | h
      · exact le_trans (foldl_min_le_init t (min a y)) (min_le_right a y)
      · exact ih (min a b) y h

lemma pymin_le_of_mem (l : List ℚ) {y : ℚ} (hy : y ∈ l) : pymin l ≤ y := by
  cases l with
  | nil => exact absurd hy (List.not_mem_nil y)
  | cons x xs =>
      unfold pymin
      rcases List.mem_cons.mp hy with rfl | h
      · exact foldl_min_le_init xs y
      · exact foldl_min_le_mem xs x y h

lemma le_foldl_max_init (l : List ℚ) : ∀ a : ℚ, a ≤ l.foldl max a := by
  induction l with
  | nil => intro a; exact le_refl a
  | cons b t ih => intro a; exact le_trans (le_max_left a b) (ih (max a b))

lemma mem_le_foldl_max (l : List ℚ) : ∀ a y : ℚ, y ∈ l → y ≤ l.foldl max a := by
  induction l with
  | nil => intro a y hy; exact absurd hy (List.not_mem_nil y)
  | cons b t ih =>
      intro a y hy
      rcases List.mem_cons.mp hy with rfl | h
      · exact le_trans (le_max_right a y) (le_foldl_max_init t (max a y))
      · exact ih (max a b) y h

lemma mem_le_pymax (l : List ℚ) {y : ℚ} (hy : y ∈ l) : y ≤ pymax l := by
  cases l with
  | nil => exact absurd hy (List.not_mem_nil y)
  | cons x xs =>
      unfold pymax
      rcases List.mem_cons.mp hy with rfl | h
      · exact le_foldl_max_init xs y
      · exact mem_le_foldl_max xs x y h

/-- Uniform form of the percentile formula: linear interpolation between the
floor-index element and its successor; at integral indices the fractional
part vanishes and this degenerates to the floor-index element.  Proof device
only — the claims are stated about `percentile` itself. -/
def interp (s : List ℚ) (x : ℚ) : ℚ :=
  s.getD (⌊x⌋).toNat 0 +
    (s.getD ((⌊x⌋).toNat + 1) 0 - s.getD (⌊x⌋).toNat 0) * (x - ((⌊x⌋ : ℤ) : ℚ))

lemma percentile_eq_interp {s : List ℚ} (hn : s.length ≠ 0) {p : ℚ} (hp0 : 0 ≤ p) :
    percentile s p = interp s (percentileIndex p s.length) := by
  have hx0 : 0 ≤ percentileIndex p s.length := percentileIndex_nonneg hn hp0
  have hpy : pyint (percentileIndex p s.length) = ⌊percentileIndex p s.length⌋ :=
    pyint_eq_floor hx0
  unfold percentile interp
  rw [if_neg hn, hpy]
  by_cases hden : (percentileIndex p s.length).den = 1
  · rw [if_pos hden]
    have hint : ((percentileIndex p s.length).num : ℚ) = percentileIndex p s.length :=
      (Rat.den_eq_one_iff _).mp hden
    have hfl : ⌊percentileIndex p s.length⌋ = (percentileIndex p s.length).num := by
      conv_lhs => rw [← hint]
      exact Int.floor_intCast _
    have hfrac : percentileIndex p s.length - ((⌊percentileIndex p s.length⌋ : ℤ) : ℚ) = 0 := by
      rw [hfl, hint]
      ring
    rw [hfrac, mul_zero, add_zero]
  · rw [if_neg hden]

lemma getD_floor_le_interp {s : List ℚ} (hs : s.Sorted (· ≤ ·)) {x : ℚ}
    (hx0 : 0 ≤ x) (hx1 : x ≤ (s.length : ℚ) - 1) :
    s.getD (⌊x⌋).toNat 0 ≤ interp s x := by
  obtain ⟨hk, hn1⟩ := floor_index_le hx0 hx1
  have h0 : (0 : ℤ) ≤ ⌊x⌋ := Int.floor_nonneg.mpr hx0
  by_cases hk1 : (⌊x⌋).toNat + 1 < s.length
  · have hslope : s.getD (⌊x⌋).toNat 0 ≤ s.getD ((⌊x⌋).toNat + 1) 0 :=
      sorted_getD_le s hs (Nat.le_succ _) hk1
    have hfrac : 0 ≤ x - ((⌊x⌋ : ℤ) : ℚ) := sub_nonneg.mpr (Int.floor_le x)
    have hmul : 0 ≤ (s.getD ((⌊x⌋).toNat + 1) 0 - s.getD (⌊x⌋).toNat 0) *
        (x - ((⌊x⌋ : ℤ) : ℚ)) := mul_nonneg (by linarith) hfrac
    unfold interp
    linarith
  · have hfl : ((⌊x⌋ : ℤ) : ℚ) = x := by
      refine le_antisymm (Int.floor_le x) ?_
      have hcast : (((⌊x⌋).toNat : ℕ) : ℚ) = ((⌊x⌋ : ℤ) : ℚ) := by
        exact_mod_cast Int.toNat_of_nonneg h0
      have hkeq : (⌊x⌋).toNat = s.length - 1 := by omega
      have hcast2 : ((s.length - 1 : ℕ) : ℚ) = (s.length : ℚ) - 1 := by
        rw [Nat.cast_sub hn1]
        norm_num
      rw [← hcast, hkeq, hcast2]
      exact hx1
    have hfrac0 : x - ((⌊x⌋ : ℤ) : ℚ) = 0 := by rw [hfl]; ring
    unfold interp
    rw [hfrac0, mul_zero, add_zero]

lemma interp_le_getD {s : List ℚ} (hs : s.Sorted (· ≤ ·)) {x : ℚ}
    (hx0 : 0 ≤ x) (hx1 : x ≤ (s.length : ℚ) - 1) :
    interp s x ≤ s.getD (min ((⌊x⌋).toNat + 1) (s.length - 1)) 0 := by
  obtain ⟨hk, hn1⟩ := floor_index_le hx0 hx1
  by_cases hne : ((⌊x⌋ : ℤ) : ℚ) = x
  · have hfrac0 : x - ((⌊x⌋ : ℤ) : ℚ) = 0 := by rw [hne]; ring
    have hintp : interp s x = s.getD (⌊x⌋).toNat 0 := by
      unfold interp
      rw [hfrac0, mul_zero, add_zero]
    rw [hintp]
    exact sorted_getD_le s hs (le_min (Nat.le_succ _) hk) (by omega)
  · have hsucc : (⌊x⌋).toNat + 1 ≤ s.length - 1 := floor_index_succ_le hx0 hx1 hne
    rw [min_eq_left hsucc]
    have hk1 : (⌊x⌋).toNat + 1 < s.length := by omega
    have hslope : s.getD (⌊x⌋).toNat 0 ≤ s.getD ((⌊x⌋).toNat + 1) 0 :=
      sorted_getD_le s hs (Nat.le_succ _) hk1
    have hfrac1 : x - ((⌊x⌋ : ℤ) : ℚ) ≤ 1 := by
      have h := Int.lt_floor_add_one x
      linarith
    have hmul := mul_le_of_le_one_right (sub_nonneg.mpr hslope) hfrac1
    unfold interp
    linarith

lemma interp_mono {s : List ℚ} (hs : s.Sorted (· ≤ ·)) {x y : ℚ}
    (hx0 : 0 ≤ x) (hxy : x ≤ y) (hy1 : y ≤ (s.length : ℚ) - 1) :
    interp s x ≤ interp s y := by
  have hy0 : 0 ≤ y := le_trans hx0 hxy
  have hx1 : x ≤ (s.length : ℚ) - 1 := le_trans hxy hy1
  obtain ⟨hkx, hn1⟩ := floor_index_le hx0 hx1
  obtain ⟨hky, _⟩ := floor_index_le hy0 hy1
  have h0x : (0 : ℤ) ≤ ⌊x⌋ := Int.floor_nonneg.mpr hx0
  have h0y : (0 : ℤ) ≤ ⌊y⌋ := Int.floor_nonneg.mpr hy0
  have hflxy : ⌊x⌋ ≤ ⌊y⌋ := Int.floor_le_floor hxy
  by_cases heq : (⌊x⌋).toNat = (⌊y⌋).toNat
  · have hfleq : ⌊x⌋ = ⌊y⌋ := by omega
    by_cases hk1 : (⌊x⌋).toNat + 1 < s.length
    · have hslope : 0 ≤ s.getD ((⌊x⌋).toNat + 1) 0 - s.getD (⌊x⌋).toNat 0 :=
        sub_nonneg.mpr (sorted_getD_le s hs (Nat.le_succ _) hk1)
      have hd : x - ((⌊x⌋ : ℤ) : ℚ) ≤ y - ((⌊x⌋ : ℤ) : ℚ) := by linarith
      have hmul := mul_le_mul_of_nonneg_left hd hslope
      unfold interp
      rw [← heq, ← hfleq]
      linarith
    · have hkeq : (⌊x⌋).toNat = s.length - 1 := by omega
      have hcastx : (((⌊x⌋).toNat : ℕ) : ℚ) = ((⌊x⌋ : ℤ) : ℚ) := by
        exact_mod_cast Int.toNat_of_nonneg h0x
      have hcast2 : ((s.length - 1 : ℕ) : ℚ) = (s.length : ℚ) - 1 := by
        rw [Nat.cast_sub hn1]
        norm_num
      have hxe : ((⌊x⌋ : ℤ) : ℚ) = x := by
        refine le_antisymm (Int.floor_le x) ?_
        rw [← hcastx, hkeq, hcast2]
        exact hx1
      have hye : ((⌊y⌋ : ℤ) : ℚ) = y := by
        refine le_antisymm (Int.floor_le y) ?_
        rw [← hfleq, ← hcastx, hkeq, hcast2]
        exact hy1
      have hxy2 : x = y := by rw [← hxe, ← hye, hfleq]
      rw [hxy2]
  · have hlt : (⌊x⌋).toNat < (⌊y⌋).toNat := by omega
    calc interp s x ≤ s.getD (min ((⌊x⌋).toNat + 1) (s.length - 1)) 0 :=
          interp_le_getD hs hx0 hx1
      _ ≤ s.getD ((⌊y⌋).toNat) 0 :=
          sorted_getD_le s hs (by omega) (by omega)
      _ ≤ interp s y := getD_floor_le_interp hs hy0 hy1

lemma le_percentile {s : List ℚ} (hs : s.Sorted (· ≤ ·)) (hn : s.length ≠ 0)
    {p : ℚ} (hp0 : 0 ≤ p) (hp1 : p ≤ 100) {m : ℚ} (hm : ∀ y ∈ s, m ≤ y) :
    m ≤ percentile s p := by
  rw [percentile_eq_interp hn hp0]
  have hx0 := percentileIndex_nonneg hn hp0
  have hx1 := percentileIndex_le_sub_one hn hp0 hp1
  obtain ⟨hk, hn1⟩ := floor_index_le hx0 hx1
  exact le_trans (hm _ (getD_mem_of_lt s (by omega))) (getD_floor_le_interp hs hx0 hx1)

lemma percentile_le {s : List ℚ} (hs : s.Sorted (· ≤ ·)) (hn : s.length ≠ 0)
    {p : ℚ} (hp0 : 0 ≤ p) (hp1 : p ≤ 100) {M : ℚ} (hM : ∀ y ∈ s, y ≤ M) :
    percentile s p ≤ M := by
  rw [percentile_eq_interp hn hp0]
  have hx0 := percentileIndex_nonneg hn hp0
  have hx1 := percentileIndex_le_sub_one hn hp0 hp1
  obtain ⟨hk, hn1⟩ := floor_index_le hx0 hx1
  refine le_trans (interp_le_getD hs hx0 hx1) (hM _ (getD_mem_of_lt s ?_))
  have hmin : min ((⌊percentileIndex p s.length⌋).toNat + 1) (s.length - 1) ≤ s.length - 1 :=
    min_le_right _ _
  omega

lemma percentile_mono {s : List ℚ} (hs : s.Sorted (· ≤ ·)) (hn : s.length ≠ 0)
    {p q : ℚ} (hp0 : 0 ≤ p) (hpq : p ≤ q) (hq : q ≤ 100) :
    percentile s p ≤ percentile s q := by
  have hq0 : 0 ≤ q := le_trans hp0 hpq
  rw [percentile_eq_interp hn hp0, percentile_eq_interp hn hq0]
  refine interp_mono hs (percentileIndex_nonneg hn hp0) ?_
    (percentileIndex_le_sub_one hn hq0 hq)
  have h1 : (1 : ℚ) ≤ (s.length : ℚ) := by exact_mod_cast Nat.one_le_iff_ne_zero.mpr hn
  exact mul_le_mul_of_nonneg_right (by linarith) (by linarith)

lemma pymedian_bounds {s : List ℚ} (hs : s.Sorted (· ≤ ·)) (hn : s.length ≠ 0)
    {m M : ℚ} (hm : ∀ y ∈ s, m ≤ y) (hM : ∀ y ∈ s, y ≤ M) :
    m ≤ pymedian s ∧ pymedian s ≤ M := by
  have hsort : s.insertionSort (· ≤ ·) = s := List.Sorted.insertionSort_eq hs
  unfold pymedian
  rw [if_neg hn, hsort]
  have hpos : 0 < s.length := Nat.pos_of_ne_zero hn
  by_cases hpar : s.length % 2 = 1
  · rw [if_pos hpar]
    have hlt : s.length / 2 < s.length := Nat.div_lt_self hpos (by norm_num)
    exact ⟨hm _ (getD_mem_of_lt s hlt), hM _ (getD_mem_of_lt s hlt)⟩
  · rw [if_neg hpar]
    have hlt2 : s.length / 2 < s.length := Nat.div_lt_self hpos (by norm_num)
    have hlt1 : s.length / 2 - 1 < s.length := by omega
    have h1 := hm _ (getD_mem_of_lt s hlt1)
    have h2 := hm _ (getD_mem_of_lt s hlt2)
    have h3 := hM _ (getD_mem_of_lt s hlt1)
    have h4 := hM _ (getD_mem_of_lt s hlt2)
    exact ⟨by linarith, by linarith⟩

lemma collectResults_length (results : List Outcome) :
    (collectResults results).1.length = (collectResults results).2.1 := by
  suffices h : ∀ (l : List Outcome) (acc : List ℚ × ℕ × ℕ),
      acc.1.length = acc.2.1 →
      (l.foldl
        (fun acc r =>
          if r.success then (acc.1 ++ [r.time], acc.2.1 + 1, acc.2.2)
          else (acc.1, acc.2.1, acc.2.2 + 1)) acc).1.length =
      (l.foldl
        (fun acc r =>
          if r.success then (acc.1 ++ [r.time], acc.2.1 + 1, acc.2.2)
          else (acc.1, acc.2.1, acc.2.2 + 1)) acc).2.1 by
    exact h results ([], 0, 0) rfl
  intro l
  induction l with
  | nil => intro acc hacc; exact hacc
  | cons r t ih =>
      intro acc hacc
      simp only [List.foldl_cons]
      apply ih
      by_cases hr : r.success
      · rw [if_pos hr]
        simp [hacc]
      · rw [if_neg hr]
        exact hacc

/-- C2: for every run whose measurement phase records at least 2 successful
outcomes, the statistics returned by `run_qps_load_test` over the collected
successful latencies satisfy `min ≤ p90 ≤ p95 ≤ p99 ≤ max` and
`min ≤ median ≤ max`. -/
theorem run_statistics_monotone (results : List Outcome) (run_seconds : ℚ)
    (h2 : 2 ≤ (collectResults results).2.1) :
    (run_qps_load_test results run_seconds).min_time ≤
        (run_qps_load_test results run_seconds).p90 ∧
    (run_qps_load_test results run_seconds).p90 ≤
        (run_qps_load_test results run_seconds).p95 ∧
    (run_qps_load_test results run_seconds).p95 ≤
        (run_qps_load_test results run_seconds).p99 ∧
    (run_qps_load_test results run_seconds).p99 ≤
        (run_qps_load_test results run_seconds).max_time ∧
    (run_qps_load_test results run_seconds).min_time ≤
        (run_qps_load_test results run_seconds).median_time ∧
    (run_qps_load_test results run_seconds).median_time ≤
        (run_qps_load_test results run_seconds).max_time := by
  have hlen : (collectResults results).1.length = (collectResults results).2.1 :=
    collectResults_length results
  have hlen2 : 2 ≤ (collectResults results).1.length := by omega
  have hnil : (collectResults results).1 ≠ [] := by
    intro h
    rw [h] at hlen2
    simp at hlen2
  have hR : run_qps_load_test results run_seconds =
      computeRunResult (collectResults results).1 (collectResults results).2.1
        (collectResults results).2.2 run_seconds := rfl
  rw [hR]
  unfold computeRunResult
  rw [if_neg hnil]
  have hs : ((collectResults results).1.insertionSort (· ≤ ·)).Sorted (· ≤ ·) :=
    List.sorted_insertionSort _ _
  have hperm : List.Perm ((collectResults results).1.insertionSort (· ≤ ·))
      (collectResults results).1 := List.perm_insertionSort _ _
  have hslen : ((collectResults results).1.insertionSort (· ≤ ·)).length =
      (collectResults results).1.length := hperm.length_eq
  have hsn : ((collectResults results).1.insertionSort (· ≤ ·)).length ≠ 0 := by omega
  have hm : ∀ y ∈ (collectResults results).1.insertionSort (· ≤ ·),
      pymin (collectResults results).1 ≤ y :=
    fun y hy => pymin_le_of_mem (collectResults results).1 (hperm.subset hy)
  have hM : ∀ y ∈ (collectResults results).1.insertionSort (· ≤ ·),
      y ≤ pymax (collectResults results).1 :=
    fun y hy => mem_le_pymax (collectResults results).1 (hperm.subset hy)
  refine ⟨?_, ?_, ?_, ?_, ?_, ?_⟩
  · exact le_percentile hs hsn (by norm_num) (by norm_num) hm
  · exact percentile_mono hs hsn (by norm_num) (by norm_num) (by norm_num)
  · exact percentile_mono hs hsn (by norm_num) (by norm_num) (by norm_num)
  · exact percentile_le hs hsn (by norm_num) (by norm_num) hM
  · exact (pymedian_bounds hs hsn hm hM).1
  · exact (pymedian_bounds hs hsn hm hM).2

/-- Three successful outcomes (latencies 3, 1, 2) and one failure, as left in
the results queue by the workers of some run. -/
def sampleOutcomes : List Outcome :=
  [⟨true, 3, some 11, some 1, none⟩,
   ⟨true, 1, some 12, some 1, none⟩,
   ⟨false, 0, none, none, some sampleError⟩,
   ⟨true, 2, some 13, some 1, none⟩]

/-- Witness for `run_statistics_monotone` on `sampleOutcomes`. -/
theorem run_statistics_monotone_witness :
    2 ≤ (collectResults sampleOutcomes).2.1 ∧
    ((run_qps_load_test sampleOutcomes 60).min_time ≤
        (run_qps_load_test sampleOutcomes 60).p90 ∧
      (run_qps_load_test sampleOutcomes 60).p90 ≤
        (run_qps_load_test sampleOutcomes 60).p95 ∧
      (run_qps_load_test sampleOutcomes 60).p95 ≤
        (run_qps_load_test sampleOutcomes 60).p99 ∧
      (run_qps_load_test sampleOutcomes 60).p99 ≤
        (run_qps_load_test sampleOutcomes 60).max_time ∧
      (run_qps_load_test sampleOutcomes 60).min_time ≤
        (run_qps_load_test sampleOutcomes 60).median_time ∧
      (run_qps_load_test sampleOutcomes 60).median_time ≤
        (run_qps_load_test sampleOutcomes 60).max_time) :=
  ⟨by decide, run_statistics_monotone sampleOutcomes 60 (by decide)⟩

lemma suiteLevelStep_ok (acc : List RunResult) (r : RunResult)
    (h : (r.successful : ℚ) + (r.failed : ℚ) ≠ 0) :
    suiteLevelStep acc r = Except.ok (acc ++ [r]) := by
  unfold suiteLevelStep pydiv
  rw [if_neg h]

/-- C3 counterexample: a run that collects zero successful and zero failed
outcomes does return the all-zero statistics tuple, but the suite driver does
NOT proceed to the next QPS level on it — its success-rate bookkeeping
divides by `successful + failed = 0` and the `ZeroDivisionError` aborts the
suite, so the claim's "regardless of how many failed outcomes exist" fails at
zero failed outcomes. -/
theorem zero_outcomes_suite_abort_cex :
    run_qps_load_test [] 60 = ⟨0, 0, 0, 0, 0, 0, 0, 0, 0, 0⟩ ∧
    suiteLevelStep [] (run_qps_load_test [] 60) =
      Except.error PyError.zeroDivisionError := by
  constructor
  · rfl
  · show suiteLevelStep [] ⟨0, 0, 0, 0, 0, 0, 0, 0, 0, 0⟩ = _
    unfold suiteLevelStep pydiv
    norm_num

/-- C3 (amended): for every run collecting zero successful outcomes,
`run_qps_load_test` returns all latency statistics and `actual_qps` equal to
0 together with the collected failed count; the suite driver proceeds to the
next QPS level (records the result and continues) provided at least one
failed outcome was collected — with zero failed outcomes as well, its
success-rate computation divides by zero and the exception aborts the suite
(see `zero_outcomes_suite_abort_cex`). -/
theorem zero_success_zero_stats (results : List Outcome) (run_seconds : ℚ)
    (acc : List RunResult) (h0 : (collectResults results).2.1 = 0) :
    run_qps_load_test results run_seconds =
      ⟨0, 0, 0, 0, 0, 0, 0, 0, 0, (collectResults results).2.2⟩ ∧
    (0 < (collectResults results).2.2 →
      suiteLevelStep acc (run_qps_load_test results run_seconds) =
        Except.ok (acc ++ [run_qps_load_test results run_seconds])) := by
  have hlen : (collectResults results).1.length = (collectResults results).2.1 :=
    collectResults_length results
  have hnil : (collectResults results).1 = [] := List.length_eq_zero.mp (by omega)
  have hR : run_qps_load_test results run_seconds =
      ⟨0, 0, 0, 0, 0, 0, 0, 0, 0, (collectResults results).2.2⟩ := by
    unfold run_qps_load_test computeRunResult
    rw [h0, hnil, if_pos rfl]
  refine ⟨hR, fun hf => ?_⟩
  rw [hR]
  apply suiteLevelStep_ok
  show ((0 : ℕ) : ℚ) + ((collectResults results).2.2 : ℚ) ≠ 0
  have hfq : (0 : ℚ) < ((collectResults results).2.2 : ℚ) := by exact_mod_cast hf
  push_cast
  linarith

/-- A results queue holding one failed outcome and no successful ones. -/
def failedOnlyOutcomes : List Outcome :=
  [⟨false, 0, none, none, some sampleError⟩]

/-- Witness for `zero_success_zero_stats` on `failedOnlyOutcomes`. -/
theorem zero_success_zero_stats_witness :
    (collectResults failedOnlyOutcomes).2.1 = 0 ∧
    (run_qps_load_test failedOnlyOutcomes 60 =
        ⟨0, 0, 0, 0, 0, 0, 0, 0, 0, (collectResults failedOnlyOutcomes).2.2⟩ ∧
      (0 < (collectResults failedOnlyOutcomes).2.2 →
        suiteLevelStep [] (run_qps_load_test failedOnlyOutcomes 60) =
          Except.ok ([] ++ [run_qps_load_test failedOnlyOutcomes 60]))) :=
  ⟨by decide, zero_success_zero_stats failedOnlyOutcomes 60 [] (by decide)⟩

/-- C9 counterexample: a per-level result with zero successful and zero
failed queries (produced, e.g., when no worker ever connects) makes the
suite's per-level bookkeeping raise `ZeroDivisionError` in its success-rate
computation, and the error is fatal to the overall suite. -/
theorem suite_zero_zero_div_error :
    runSuiteLevels [⟨0, 0, 0, 0, 0, 0, 0, 0, 0, 0⟩] =
      Except.error PyError.zeroDivisionError := by
  unfold runSuiteLevels
  simp only [List.foldlM]
  unfold suiteLevelStep pydiv
  norm_num

/-- C9 (amended): the suite's per-level loop processes and records every
per-level result without raising, and returns the full ordered list of
results, provided every level produced at least one outcome
(`successful + failed > 0`); a level with zero successful and zero failed
queries instead raises `ZeroDivisionError` in the success-rate computation,
which is fatal to the suite (see `suite_zero_zero_div_error`). -/
theorem suite_records_all_levels (levels : List RunResult)
    (h : ∀ r ∈ levels, r.successful + r.failed ≠ 0) :
    runSuiteLevels levels = Except.ok levels := by
  suffices haux : ∀ (l : List RunResult) (acc : List RunResult),
      (∀ r ∈ l, r.successful + r.failed ≠ 0) →
      List.foldlM suiteLevelStep acc l = Except.ok (acc ++ l) by
    simpa [runSuiteLevels] using haux levels [] h
  intro l
  induction l with
  | nil => intro acc _; simp [List.foldlM, Except.pure, pure]
  | cons r t ih =>
      intro acc hall
      have hr : r.successful + r.failed ≠ 0 := hall r (List.mem_cons_self r t)
      have hrq : (r.successful : ℚ) + (r.failed : ℚ) ≠ 0 := by
        have hcast : ((r.successful + r.failed : ℕ) : ℚ) ≠ 0 := Nat.cast_ne_zero.mpr hr
        push_cast at hcast
        exact hcast
      have ht : ∀ x ∈ t, x.successful + x.failed ≠ 0 :=
        fun x hx => hall x (List.mem_cons_of_mem r hx)
      simp only [List.foldlM]
      rw [suiteLevelStep_ok acc r hrq]
      have hstep := ih (acc ++ [r]) ht
      simp only [List.foldlM] at hstep
      simpa using hstep

/-- Witness for `suite_records_all_levels` on a one-level suite whose level
saw 3 successes and 1 failure. -/
theorem suite_records_all_levels_witness :
    (∀ r ∈ [(⟨0, 0, 0, 0, 0, 0, 0, 0, 3, 1⟩ : RunResult)], r.successful + r.failed ≠ 0) ∧
    runSuiteLevels [(⟨0, 0, 0, 0, 0, 0, 0, 0, 3, 1⟩ : RunResult)] =
      Except.ok [(⟨0, 0, 0, 0, 0, 0, 0, 0, 3, 1⟩ : RunResult)] :=
  ⟨by decide, suite_records_all_levels [⟨0, 0, 0, 0, 0, 0, 0, 0, 3, 1⟩] (by decide)⟩
